import Mathlib

/-!
Shallow embedding of `src/analyze_repository.py` (repository
`balaji3003/github_analysis_code`).

The core under verification is the per-commit metrics-aggregation walk:
`calculate_entropy`, the four per-file measures, and `analyze_repository`
with its two cross-commit accumulators (`file_ownership`,
`commit_counts_by_author`).

Modelling choices, all driven by the Python source:

* Python `float` arithmetic is modelled over `ℝ` (the entropy and the
  ownership mean are the only real-valued quantities; their formulas are
  exact in the source).
* The external collaborators (radon's `cc_visit`/`mi_visit`, lizard) are
  black boxes per the code's own boundaries: they are fields of an
  `Extractors` record.  A call that may raise is `Except`-valued; the
  wrappers in the source that swallow exceptions (`measure_maintainability_index`,
  `measure_cohesion_lcom`) are translated with their `try/except → 0` intact.
* `git` commits are plain data: hexsha, author email, an optional commit
  timestamp (`none` models `datetime.fromtimestamp` raising), and the
  `commit.stats.files` mapping as a list of per-file entries, each carrying
  the optional retrieved content (`none` models `commit.tree / file` or
  `data_stream.read()` raising).
* Python `dict` / `defaultdict` values are association lists updated in
  place; `set` values are duplicate-free lists grown by `insertNew`.
* An uncaught Python exception is an `Except.error` that propagates out of
  `analyze_repository` (the per-commit loop body has no try/except around
  the record construction, so `ZeroDivisionError` aborts the whole walk).
* `datetime.now() - timedelta(days=365)` is the caller-supplied cutoff
  parameter `one_year_ago : Int` (timestamps are integers).
* `pd.DataFrame(data)` followed by `df['commit_date'] = pd.to_datetime(df['commit_date'])`
  raises `KeyError` when `data` is empty (the empty frame has no columns);
  with nonempty data the sort by `commit_date` is modelled by `mergeSort`
  on the integer timestamp.
-/

/-- Python: `calculate_entropy(change_counts)` from `src/analyze_repository.py`.
`total = sum(change_counts.values())`; if `total == 0` return `0`, else
`-Σ (count/total) * log2(count/total)` over the values. The dict is passed
whole in the source; here it is the association list of (file, count). -/
noncomputable def calculate_entropy (change_counts : List (String × Nat)) : ℝ :=
  let total : Nat := (change_counts.map (fun p => p.2)).sum
  if total = 0 then 0
  else
    -((change_counts.map
        (fun p => ((p.2 : ℝ) / (total : ℝ)) * Real.logb 2 ((p.2 : ℝ) / (total : ℝ)))).sum)

/-- External collaborators (radon, lizard, `re`): black-box functions with the
contracts the source relies on.  `cc_visit` returns the list of per-block
complexities of a Python file and may raise (no try/except in
`measure_cyclomatic_complexity`); `lizard_functions` returns the list of
per-function cyclomatic complexities; `mi_visit_mi` models
`mi_visit(source, False)['mi']` which may raise. -/
structure Extractors where
  cc_visit : String → Except String (List Nat)
  lizard_functions : String → Except String (List Nat)
  mi_visit_mi : String → Except String ℝ

/-- Python: `measure_cyclomatic_complexity(source_code, file_extension)`.
For `.py` it sums radon block complexities; otherwise it sums lizard
function complexities.  No exception handling in the source, so a raise from
the backend propagates (`Except`). -/
def measure_cyclomatic_complexity (E : Extractors) (source_code : String)
    (file_extension : String) : Except String Nat :=
  if file_extension = ".py" then
    (E.cc_visit source_code).map (fun cs => cs.sum)
  else
    (E.lizard_functions source_code).map (fun fs => fs.sum)

/-- Python: `measure_maintainability_index(source_code)`: the backend call is
wrapped in `try/except` returning `0` on any error. -/
noncomputable def measure_maintainability_index (E : Extractors) (source_code : String) : ℝ :=
  match E.mi_visit_mi source_code with
  | Except.ok v => v
  | Except.error _ => 0

/-- Python: `measure_cohesion_lcom(source_code)`: number of lizard functions,
`try/except` returning `0` on any error. -/
def measure_cohesion_lcom (E : Extractors) (source_code : String) : Nat :=
  match E.lizard_functions source_code with
  | Except.ok fs => fs.length
  | Except.error _ => 0

/-- Word characters of the regex `\b` boundary (ASCII fragment of `\w`). -/
def isWordChar (c : Char) : Bool := c.isAlphanum || c = '_'

/-- One step of splitting a character list into maximal word-character runs. -/
def wordRunsStep (c : Char) (acc : List (List Char) × List Char) :
    List (List Char) × List Char :=
  if isWordChar c then (acc.1, c :: acc.2)
  else (if acc.2.isEmpty then acc.1 else acc.2 :: acc.1, [])

/-- Maximal runs of word characters of a character list, left to right. -/
def wordRuns (s : List Char) : List (List Char) :=
  let r := s.foldr wordRunsStep ([], [])
  if r.2.isEmpty then r.1 else r.2 :: r.1

/-- Python: `measure_coupling_imports(source_code)`:
`len(re.findall(regex, source_code))` where the regex matches the words
`import` and `from` between `\b` boundaries.  A `\b`-delimited literal word
match is exactly a maximal word-character run equal to that word, so the
count is the number of such runs (matches cannot overlap). -/
def measure_coupling_imports (source_code : String) : Nat :=
  ((wordRuns source_code.toList).filter
    (fun w => w == "import".toList || w == "from".toList)).length

/-- Python: `os.path.splitext(file)[1]` on POSIX: the suffix of the basename
from its last dot, unless every character before that dot in the basename is
itself a dot (then the extension is empty). -/
def splitext_ext (p : String) : String :=
  let base := (p.toList.reverse.takeWhile (fun c => ¬ (c = '/'))).reverse
  let afterRev := base.reverse.takeWhile (fun c => ¬ (c = '.'))
  if base.length = afterRev.length then ""
  else
    let dotIdx := base.length - afterRev.length - 1
    if (base.take dotIdx).all (fun c => c = '.') then ""
    else String.mk (base.drop dotIdx)

/-- Python `s.endswith(suffix)`: the last `len(suffix)` characters equal the
suffix. -/
def endswith (s suffix : String) : Bool :=
  s.toList.drop (s.toList.length - suffix.toList.length) == suffix.toList

/-- Python: `file.endswith(('.py', '.java'))` — the accepted-extension filter. -/
def accepted (file : String) : Bool :=
  endswith file ".py" || endswith file ".java"

/-- One entry of `commit.stats.files`: the path, the diff statistics, and the
content of the blob at this commit (`none` when `commit.tree / file` or the
stream read raises). -/
structure FileChange where
  path : String
  insertions : Nat
  deletions : Nat
  retrieval : Option String

/-- A commit as consumed by the walk: `hexsha`, `author.email`,
`committed_date` (`none` models `datetime.fromtimestamp` raising, the
`except: continue` at the loop head), and `stats.files`. -/
structure Commit where
  hexsha : String
  author_email : String
  committed_date : Option Int
  stats_files : List FileChange

/-- One output row (the dict appended to `data`). -/
structure Record where
  commit_hash : String
  commit_date : Int
  author : String
  files_changed : Nat
  lines_added : Nat
  lines_deleted : Nat
  total_cyclomatic_complexity : Nat
  total_maintainability_index : ℝ
  total_cohesion_metric_lcom : Nat
  total_coupling_metric_imports : Nat
  code_entropy : ℝ
  commit_frequency_by_author : Nat
  unique_authors_per_file_avg : ℝ

/-- Association-list lookup with `defaultdict(int)` default `0`. -/
def lookupD (m : List (String × Nat)) (k : String) : Nat :=
  match m with
  | [] => 0
  | (k0, v) :: rest => if k0 = k then v else lookupD rest k

/-- Python `counter[k] += 1` on a `defaultdict(int)` / `Counter`. -/
def incCount (m : List (String × Nat)) (k : String) : List (String × Nat) :=
  match m with
  | [] => [(k, 1)]
  | (k0, v) :: rest => if k0 = k then (k0, v + 1) :: rest else (k0, v) :: incCount rest k

/-- Owner set of a file in the ownership map (`defaultdict(set)` default `∅`). -/
def ownersD (fo : List (String × List String)) (k : String) : List String :=
  match fo with
  | [] => []
  | (k0, s) :: rest => if k0 = k then s else ownersD rest k

/-- Python `set.add`: sets are modelled as duplicate-free lists. -/
def insertNew (l : List String) (a : String) : List String :=
  if a ∈ l then l else l ++ [a]

/-- Python `file_ownership[file].add(author_email)` on a `defaultdict(set)`. -/
def addOwner (fo : List (String × List String)) (k : String) (a : String) :
    List (String × List String) :=
  match fo with
  | [] => [(k, [a])]
  | (k0, s) :: rest =>
    if k0 = k then (k0, insertNew s a) :: rest else (k0, s) :: addOwner rest k a

/-- `sum(len(owners) for owners in file_ownership.values())`. -/
def sumOwners (fo : List (String × List String)) : Nat :=
  (fo.map (fun e => e.2.length)).sum

/-- Per-commit sums, all initialised to `0` at the top of the loop body. -/
structure CommitAcc where
  churn_add : Nat
  churn_del : Nat
  file_count : Nat
  complexity_total : Nat
  mi_total : ℝ
  lcom_total : Nat
  import_count_total : Nat
  file_change_counter : List (String × Nat)

/-- The zero-initialised per-commit sums. -/
def initAcc : CommitAcc :=
  { churn_add := 0, churn_del := 0, file_count := 0, complexity_total := 0,
    mi_total := 0, lcom_total := 0, import_count_total := 0,
    file_change_counter := [] }

/-- The body of `for file in commit.stats.files` translated clause by clause:
unconditionally bump the change counter and the ownership set; for accepted
extensions try retrieval (failure skips the file with nothing added), then add
churn and the file count, then run the measures — a raise inside
`measure_cyclomatic_complexity` is caught by the `except Exception: continue`,
leaving the already-performed churn/count additions in place.  The remaining
three measures cannot raise (their handlers are internal). -/
noncomputable def foldFile (E : Extractors) (author_email : String)
    (st : CommitAcc × List (String × List String)) (f : FileChange) :
    CommitAcc × List (String × List String) :=
  let acc0 := st.1
  let fo := addOwner st.2 f.path author_email
  let acc :=
    { acc0 with file_change_counter := incCount acc0.file_change_counter f.path }
  if accepted f.path then
    match f.retrieval with
    | none => (acc, fo)
    | some source_code =>
      let acc :=
        { acc with churn_add := acc.churn_add + f.insertions,
                   churn_del := acc.churn_del + f.deletions,
                   file_count := acc.file_count + 1 }
      let ext := splitext_ext f.path
      match measure_cyclomatic_complexity E source_code ext with
      | Except.error _ => (acc, fo)
      | Except.ok cplx =>
        let acc := { acc with complexity_total := acc.complexity_total + cplx }
        let acc :=
          if ext = ".py" then
            { acc with mi_total := acc.mi_total + measure_maintainability_index E source_code }
          else acc
        let acc :=
          { acc with import_count_total :=
              acc.import_count_total + measure_coupling_imports source_code }
        let acc :=
          { acc with lcom_total := acc.lcom_total + measure_cohesion_lcom E source_code }
        (acc, fo)
  else (acc, fo)

/-- The whole `for file in commit.stats.files` loop as a fold. -/
noncomputable def commitFold (E : Extractors) (author_email : String)
    (fo : List (String × List String)) (files : List FileChange) :
    CommitAcc × List (String × List String) :=
  files.foldl (foldFile E author_email) (initAcc, fo)

/-- The dict appended to `data` for one qualifying commit (source lines
183–197).  `counts` is the author counter already incremented for this
commit; `fo` is the ownership map already updated by the file loop and known
nonempty at this point (otherwise the division raised). -/
noncomputable def mkRecord (commit : Commit) (commit_date : Int) (acc : CommitAcc)
    (fo : List (String × List String)) (counts : List (String × Nat)) : Record :=
  { commit_hash := commit.hexsha
    commit_date := commit_date
    author := commit.author_email
    files_changed := acc.file_count
    lines_added := acc.churn_add
    lines_deleted := acc.churn_del
    total_cyclomatic_complexity := acc.complexity_total
    total_maintainability_index := acc.mi_total
    total_cohesion_metric_lcom := acc.lcom_total
    total_coupling_metric_imports := acc.import_count_total
    code_entropy := calculate_entropy acc.file_change_counter
    commit_frequency_by_author := lookupD counts commit.author_email
    unique_authors_per_file_avg := (sumOwners fo : ℝ) / (fo.length : ℝ) }

/-- Walk state: the growing `data` list and the two cross-commit accumulators. -/
structure WalkState where
  data : List Record
  file_ownership : List (String × List String)
  commit_counts_by_author : List (String × Nat)

/-- All three containers start empty (source lines 132–134). -/
def initState : WalkState :=
  { data := [], file_ownership := [], commit_counts_by_author := [] }

/-- One iteration of `for commit in repo.iter_commits()`: skip on missing
timestamp or a date before the cutoff; otherwise bump the author counter, run
the file loop, and append the record — unless `file_ownership` is still empty,
in which case `len(file_ownership)` is `0` and the mean's division raises
`ZeroDivisionError`, which nothing catches. -/
noncomputable def processCommit (E : Extractors) (one_year_ago : Int)
    (s : WalkState) (commit : Commit) : Except String WalkState :=
  match commit.committed_date with
  | none => Except.ok s
  | some commit_date =>
    if commit_date < one_year_ago then Except.ok s
    else
      let counts := incCount s.commit_counts_by_author commit.author_email
      let p := commitFold E commit.author_email s.file_ownership commit.stats_files
      if p.2.isEmpty then Except.error "ZeroDivisionError: division by zero"
      else
        Except.ok
          { data := s.data ++ [mkRecord commit commit_date p.1 p.2 counts]
            file_ownership := p.2
            commit_counts_by_author := counts }

/-- Python `df.sort_values('commit_date')`: sort the records by commit date. -/
noncomputable def sortByDate (l : List Record) : List Record :=
  l.mergeSort (fun a b => decide (a.commit_date ≤ b.commit_date))

/-- Python: `analyze_repository` — fold the walk over the supplied commits
(the `git` walker and the clock are externalized: commits and the cutoff are
parameters), then assemble the dataset.  With an empty `data` list,
`pd.DataFrame(data)` has no columns and `df['commit_date']` raises
`KeyError`; otherwise the frame is sorted by `commit_date` and returned. -/
noncomputable def analyze_repository (E : Extractors) (one_year_ago : Int)
    (commits : List Commit) : Except String (List Record) :=
  (commits.foldlM (processCommit E one_year_ago) initState).bind
    (fun s =>
      if s.data.isEmpty then Except.error "KeyError: commit_date"
      else Except.ok (sortByDate s.data))

/-! ## Helper lemmas about the accumulator containers -/

theorem lookupD_incCount_self (m : List (String × Nat)) (k : String) :
    lookupD (incCount m k) k = lookupD m k + 1 := by
  induction m with
  | nil => simp [incCount, lookupD]
  | cons hd tl ih =>
    obtain ⟨k0, v⟩ := hd
    by_cases h : k0 = k
    · simp [incCount, lookupD, h]
    · simp [incCount, lookupD, h, ih]

theorem lookupD_incCount_le (m : List (String × Nat)) (k a : String) :
    lookupD m a ≤ lookupD (incCount m k) a := by
  induction m with
  | nil =>
    by_cases h : k = a <;> simp [incCount, lookupD, h]
  | cons hd tl ih =>
    obtain ⟨k0, v⟩ := hd
    by_cases h : k0 = k
    · simp only [incCount, if_pos h, lookupD]
      split
      · omega
      · exact le_refl _
    · simp only [incCount, if_neg h, lookupD]
      split
      · exact le_refl _
      · exact ih

theorem mem_insertNew_self (l : List String) (a : String) : a ∈ insertNew l a := by
  by_cases h : a ∈ l <;> simp [insertNew, h]

theorem mem_insertNew_of_mem (l : List String) (a x : String) (hx : x ∈ l) :
    x ∈ insertNew l a := by
  by_cases h : a ∈ l <;> simp [insertNew, h, hx]

theorem length_le_length_insertNew (l : List String) (a : String) :
    l.length ≤ (insertNew l a).length := by
  by_cases h : a ∈ l <;> simp [insertNew, h]

theorem ownersD_addOwner_self (fo : List (String × List String)) (k a : String) :
    ownersD (addOwner fo k a) k = insertNew (ownersD fo k) a := by
  induction fo with
  | nil => simp [addOwner, ownersD, insertNew]
  | cons hd tl ih =>
    obtain ⟨k0, s⟩ := hd
    by_cases h : k0 = k
    · simp [addOwner, ownersD, h]
    · simp [addOwner, ownersD, h, ih]

theorem ownersD_addOwner_ne (fo : List (String × List String)) (k a k' : String)
    (h : k ≠ k') : ownersD (addOwner fo k a) k' = ownersD fo k' := by
  induction fo with
  | nil => simp [addOwner, ownersD, h]
  | cons hd tl ih =>
    obtain ⟨k0, s⟩ := hd
    by_cases h2 : k0 = k
    · subst h2
      have h4 : ¬ k0 = k' := fun hh => h (hh ▸ rfl)
      simp [addOwner, ownersD, h4]
    · by_cases h3 : k0 = k'
      · subst h3
        simp [addOwner, ownersD, h2]
      · simp [addOwner, ownersD, h2, h3, ih]

theorem mem_ownersD_addOwner (fo : List (String × List String)) (k a k' x : String)
    (hx : x ∈ ownersD fo k') : x ∈ ownersD (addOwner fo k a) k' := by
  by_cases h : k = k'
  · subst h; rw [ownersD_addOwner_self]; exact mem_insertNew_of_mem _ _ _ hx
  · rwa [ownersD_addOwner_ne _ _ _ _ h]

theorem length_ownersD_addOwner (fo : List (String × List String)) (k a k' : String) :
    (ownersD fo k').length ≤ (ownersD (addOwner fo k a) k').length := by
  by_cases h : k = k'
  · subst h; rw [ownersD_addOwner_self]; exact length_le_length_insertNew _ _
  · rw [ownersD_addOwner_ne _ _ _ _ h]

theorem addOwner_ne_nil (fo : List (String × List String)) (k a : String) :
    addOwner fo k a ≠ [] := by
  cases fo with
  | nil => simp [addOwner]
  | cons hd tl =>
    obtain ⟨k0, s⟩ := hd
    by_cases h : k0 = k <;> simp [addOwner, h]

theorem length_le_length_addOwner (fo : List (String × List String)) (k a : String) :
    fo.length ≤ (addOwner fo k a).length := by
  induction fo with
  | nil => simp [addOwner]
  | cons hd tl ih =>
    obtain ⟨k0, s⟩ := hd
    by_cases h : k0 = k
    · simp [addOwner, h]
    · simp only [addOwner, if_neg h, List.length_cons]
      omega

theorem incCount_of_notMem (m : List (String × Nat)) (k : String)
    (h : k ∉ m.map (fun p => p.1)) : incCount m k = m ++ [(k, 1)] := by
  induction m with
  | nil => simp [incCount]
  | cons hd tl ih =>
    obtain ⟨k0, v⟩ := hd
    simp only [List.map_cons, List.mem_cons, not_or] at h
    have h1 : ¬ k0 = k := fun hh => h.1 (hh ▸ rfl)
    simp [incCount, h1, ih h.2]

/-! ## Structural lemmas about the per-file fold -/

theorem foldFile_counter (E : Extractors) (a : String)
    (st : CommitAcc × List (String × List String)) (f : FileChange) :
    (foldFile E a st f).1.file_change_counter =
      incCount st.1.file_change_counter f.path := by
  unfold foldFile
  cases h1 : accepted f.path
  · rfl
  · cases h2 : f.retrieval with
    | none => rfl
    | some src =>
      cases h3 : measure_cyclomatic_complexity E src (splitext_ext f.path) with
      | error e => simp [h3]
      | ok cplx =>
        simp only [h3, if_true]
        split <;> rfl

theorem foldFile_ownership (E : Extractors) (a : String)
    (st : CommitAcc × List (String × List String)) (f : FileChange) :
    (foldFile E a st f).2 = addOwner st.2 f.path a := by
  unfold foldFile
  cases h1 : accepted f.path
  · rfl
  · cases h2 : f.retrieval with
    | none => rfl
    | some src =>
      cases h3 : measure_cyclomatic_complexity E src (splitext_ext f.path) with
      | error e => simp [h3]
      | ok cplx => simp [h3]

theorem foldFile_retrieval_none (E : Extractors) (a : String)
    (st : CommitAcc × List (String × List String)) (f : FileChange)
    (h : f.retrieval = none) :
    (foldFile E a st f).1 =
      { st.1 with
        file_change_counter := incCount st.1.file_change_counter f.path } := by
  unfold foldFile
  cases h1 : accepted f.path
  · rfl
  · simp [h]

theorem foldFile_not_accepted (E : Extractors) (a : String)
    (st : CommitAcc × List (String × List String)) (f : FileChange)
    (h : accepted f.path = false) :
    (foldFile E a st f).1 =
      { st.1 with
        file_change_counter := incCount st.1.file_change_counter f.path } := by
  unfold foldFile
  rw [h]
  rfl

theorem foldFile_cc_error (E : Extractors) (a : String)
    (st : CommitAcc × List (String × List String)) (f : FileChange)
    (src e : String) (h1 : accepted f.path = true) (h2 : f.retrieval = some src)
    (h3 : measure_cyclomatic_complexity E src (splitext_ext f.path) = Except.error e) :
    (foldFile E a st f).1 =
      { st.1 with
        file_change_counter := incCount st.1.file_change_counter f.path,
        churn_add := st.1.churn_add + f.insertions,
        churn_del := st.1.churn_del + f.deletions,
        file_count := st.1.file_count + 1 } := by
  unfold foldFile
  simp [h1, h2, h3]

theorem commitFold_ownership (E : Extractors) (a : String)
    (files : List FileChange) :
    ∀ st : CommitAcc × List (String × List String),
      (files.foldl (foldFile E a) st).2 =
        files.foldl (fun fo f => addOwner fo f.path a) st.2 := by
  induction files with
  | nil => intro st; rfl
  | cons f rest ih =>
    intro st
    simp only [List.foldl_cons]
    rw [ih, foldFile_ownership]

theorem commitFold_counter (E : Extractors) (a : String)
    (files : List FileChange) :
    ∀ st : CommitAcc × List (String × List String),
      (files.foldl (foldFile E a) st).1.file_change_counter =
        files.foldl (fun m f => incCount m f.path) st.1.file_change_counter := by
  induction files with
  | nil => intro st; rfl
  | cons f rest ih =>
    intro st
    simp only [List.foldl_cons]
    rw [ih, foldFile_counter]

/-! ## Branch lemmas about one loop iteration -/

theorem processCommit_no_date (E : Extractors) (k : Int) (s : WalkState) (c : Commit)
    (h : c.committed_date = none) : processCommit E k s c = Except.ok s := by
  unfold processCommit
  rw [h]

theorem processCommit_too_old (E : Extractors) (k : Int) (s : WalkState) (c : Commit)
    (d : Int) (h : c.committed_date = some d) (hd : d < k) :
    processCommit E k s c = Except.ok s := by
  unfold processCommit
  rw [h]
  simp [hd]

theorem processCommit_qual_empty (E : Extractors) (k : Int) (s : WalkState) (c : Commit)
    (d : Int) (h : c.committed_date = some d) (hd : ¬ d < k)
    (he : (commitFold E c.author_email s.file_ownership c.stats_files).2.isEmpty = true) :
    processCommit E k s c = Except.error "ZeroDivisionError: division by zero" := by
  unfold processCommit
  rw [h]
  simp [hd, he]

theorem processCommit_qual_ok (E : Extractors) (k : Int) (s : WalkState) (c : Commit)
    (d : Int) (h : c.committed_date = some d) (hd : ¬ d < k)
    (he : (commitFold E c.author_email s.file_ownership c.stats_files).2.isEmpty = false) :
    processCommit E k s c =
      Except.ok
        { data := s.data ++
            [mkRecord c d (commitFold E c.author_email s.file_ownership c.stats_files).1
              (commitFold E c.author_email s.file_ownership c.stats_files).2
              (incCount s.commit_counts_by_author c.author_email)]
          file_ownership := (commitFold E c.author_email s.file_ownership c.stats_files).2
          commit_counts_by_author := incCount s.commit_counts_by_author c.author_email } := by
  unfold processCommit
  rw [h]
  simp [hd, he]

/-- Exhaustive case analysis of a successful iteration: the commit is either
skipped (state unchanged) or emits exactly one record carrying its hexsha,
its date, the incremented counter and the updated ownership map. -/
theorem processCommit_ok_cases (E : Extractors) (k : Int) (s : WalkState) (c : Commit)
    (s' : WalkState) (h : processCommit E k s c = Except.ok s') :
    s' = s ∨
      ∃ d, c.committed_date = some d ∧ ¬ d < k ∧
        (commitFold E c.author_email s.file_ownership c.stats_files).2.isEmpty = false ∧
        s' = { data := s.data ++
                 [mkRecord c d (commitFold E c.author_email s.file_ownership c.stats_files).1
                   (commitFold E c.author_email s.file_ownership c.stats_files).2
                   (incCount s.commit_counts_by_author c.author_email)]
               file_ownership := (commitFold E c.author_email s.file_ownership c.stats_files).2
               commit_counts_by_author := incCount s.commit_counts_by_author c.author_email } := by
  cases hc : c.committed_date with
  | none =>
    rw [processCommit_no_date E k s c hc] at h
    exact Or.inl (Except.ok.inj h).symm
  | some d =>
    by_cases hd : d < k
    · rw [processCommit_too_old E k s c d hc hd] at h
      exact Or.inl (Except.ok.inj h).symm
    · cases he : (commitFold E c.author_email s.file_ownership c.stats_files).2.isEmpty with
      | true =>
        rw [processCommit_qual_empty E k s c d hc hd he] at h
        exact absurd h (by simp)
      | false =>
        rw [processCommit_qual_ok E k s c d hc hd he] at h
        exact Or.inr ⟨d, rfl, hd, rfl, (Except.ok.inj h).symm⟩

/-! ## Walk-level inversion -/

theorem foldlM_cons_walk (E : Extractors) (k : Int) (s : WalkState) (c : Commit)
    (rest : List Commit) :
    (c :: rest).foldlM (processCommit E k) s =
      (processCommit E k s c).bind (fun s1 => rest.foldlM (processCommit E k) s1) := by
  rw [List.foldlM_cons]
  rfl

theorem analyze_repository_ok_inv (E : Extractors) (k : Int) (commits : List Commit)
    (tbl : List Record) (h : analyze_repository E k commits = Except.ok tbl) :
    ∃ s, commits.foldlM (processCommit E k) initState = Except.ok s ∧
      s.data.isEmpty = false ∧ tbl = sortByDate s.data := by
  unfold analyze_repository at h
  cases hf : commits.foldlM (processCommit E k) initState with
  | error e => rw [hf] at h; exact absurd h (by simp [Except.bind])
  | ok s =>
    rw [hf] at h
    cases he : s.data.isEmpty with
    | true =>
      simp only [Except.bind, he, if_true] at h
      exact absurd h (by simp)
    | false =>
      simp only [Except.bind, he, if_false] at h
      exact ⟨s, rfl, he, (Except.ok.inj h).symm⟩

/-! ## Lemmas about the entropy estimator -/

theorem calculate_entropy_sum_zero (l : List (String × Nat))
    (h : (l.map (fun p => p.2)).sum = 0) : calculate_entropy l = 0 := by
  unfold calculate_entropy
  simp [h]

theorem calculate_entropy_sum_ne_zero (l : List (String × Nat))
    (h : (l.map (fun p => p.2)).sum ≠ 0) :
    calculate_entropy l =
      -((l.map
          (fun p => ((p.2 : ℝ) / (((l.map (fun q => q.2)).sum : Nat) : ℝ)) *
            Real.logb 2 ((p.2 : ℝ) / (((l.map (fun q => q.2)).sum : Nat) : ℝ)))).sum) := by
  simp only [calculate_entropy]
  rw [if_neg h]

theorem calculate_entropy_singleton (f : String) (c : Nat) :
    calculate_entropy [(f, c)] = 0 := by
  by_cases h : c = 0
  · exact calculate_entropy_sum_zero _ (by simp [h])
  · have hc : (c : ℝ) ≠ 0 := Nat.cast_ne_zero.mpr h
    unfold calculate_entropy
    simp only [List.map_cons, List.map_nil, List.sum_cons, List.sum_nil, Nat.add_zero]
    rw [if_neg h]
    rw [div_self hc]
    simp [Real.logb_one]

theorem calculate_entropy_const (l : List (String × Nat)) (c : Nat) (hc : 0 < c)
    (hall : ∀ p ∈ l, p.2 = c) (hne : l ≠ []) :
    calculate_entropy l = Real.logb 2 (l.length : ℝ) := by
  have hmap : l.map (fun p => p.2) = List.replicate l.length c := by
    have h1 : ∀ b ∈ l.map (fun p => p.2), b = c := by
      intro b hb
      obtain ⟨p, hp, hpb⟩ := List.mem_map.mp hb
      exact hpb ▸ hall p hp
    have h2 := List.eq_replicate_of_mem h1
    rwa [List.length_map] at h2
  have hk : l.length ≠ 0 := fun hh => hne (List.length_eq_zero.mp hh)
  have hkR : (l.length : ℝ) ≠ 0 := Nat.cast_ne_zero.mpr hk
  have hcR : (c : ℝ) ≠ 0 := Nat.cast_ne_zero.mpr hc.ne'
  have htot : (l.map (fun p => p.2)).sum = l.length * c := by
    rw [hmap, List.sum_replicate, smul_eq_mul]
  have htotne : (l.map (fun p => p.2)).sum ≠ 0 :=
    htot ▸ Nat.mul_ne_zero hk hc.ne'
  unfold calculate_entropy
  rw [if_neg htotne]
  have hterm : ∀ p : String × Nat, p ∈ l →
      ((p.2 : ℝ) / (((l.map (fun q => q.2)).sum : Nat) : ℝ)) *
        Real.logb 2 ((p.2 : ℝ) / (((l.map (fun q => q.2)).sum : Nat) : ℝ)) =
      ((l.length : ℝ))⁻¹ * -Real.logb 2 (l.length : ℝ) := by
    intro p hp
    have hdiv : ((p.2 : ℝ) / (((l.map (fun q => q.2)).sum : Nat) : ℝ)) =
        ((l.length : ℝ))⁻¹ := by
      rw [hall p hp, htot]
      push_cast
      field_simp
      ring
    rw [hdiv, Real.logb_inv]
  have hmap2 : l.map
      (fun p => ((p.2 : ℝ) / (((l.map (fun q => q.2)).sum : Nat) : ℝ)) *
        Real.logb 2 ((p.2 : ℝ) / (((l.map (fun q => q.2)).sum : Nat) : ℝ))) =
      List.replicate l.length (((l.length : ℝ))⁻¹ * -Real.logb 2 (l.length : ℝ)) := by
    have h1 : ∀ b ∈ l.map
        (fun p => ((p.2 : ℝ) / (((l.map (fun q => q.2)).sum : Nat) : ℝ)) *
          Real.logb 2 ((p.2 : ℝ) / (((l.map (fun q => q.2)).sum : Nat) : ℝ))),
        b = ((l.length : ℝ))⁻¹ * -Real.logb 2 (l.length : ℝ) := by
      intro b hb
      obtain ⟨p, hp, hpb⟩ := List.mem_map.mp hb
      exact hpb ▸ hterm p hp
    have h2 := List.eq_replicate_of_mem h1
    rwa [List.length_map] at h2
  rw [hmap2, List.sum_replicate, nsmul_eq_mul]
  rw [mul_comm (((l.length : ℝ))⁻¹) (-Real.logb 2 (l.length : ℝ))]
  rw [mul_comm ((l.length : ℝ)) _]
  rw [mul_assoc]
  rw [inv_mul_cancel₀ hkR]
  ring

theorem calculate_entropy_all_ones (l : List (String × Nat))
    (hall : ∀ p ∈ l, p.2 = 1) :
    calculate_entropy l = Real.logb 2 (l.length : ℝ) := by
  cases l with
  | nil => simp [calculate_entropy, Real.logb_zero]
  | cons hd tl =>
    exact calculate_entropy_const (hd :: tl) 1 one_pos hall (by simp)

/-! ## Lemmas about the dataset assembler -/

theorem sortByDate_sorted (l : List Record) :
    List.Sorted (fun a b : Record => a.commit_date ≤ b.commit_date) (sortByDate l) := by
  have h := @List.sorted_mergeSort Record
    (fun a b : Record => decide (a.commit_date ≤ b.commit_date))
    (fun a b c hab hbc => by
      simp only [decide_eq_true_eq] at hab hbc ⊢
      exact le_trans hab hbc)
    (fun a b => by
      rcases le_total a.commit_date b.commit_date with h | h <;> simp [h])
    l
  exact h.imp (fun hab => of_decide_eq_true hab)

theorem sortByDate_perm (l : List Record) : (sortByDate l).Perm l :=
  List.mergeSort_perm l _

/-! ## Lemmas about the ownership fold -/

theorem mem_ownersD_foldl_addOwner (a : String) (files : List FileChange) :
    ∀ (fo : List (String × List String)) (f x : String), x ∈ ownersD fo f →
      x ∈ ownersD (files.foldl (fun fo2 fc => addOwner fo2 fc.path a) fo) f := by
  induction files with
  | nil => intro fo f x hx; exact hx
  | cons fc rest ih =>
    intro fo f x hx
    simp only [List.foldl_cons]
    exact ih _ f x (mem_ownersD_addOwner fo fc.path a f x hx)

theorem length_ownersD_foldl_addOwner (a : String) (files : List FileChange) :
    ∀ (fo : List (String × List String)) (f : String),
      (ownersD fo f).length ≤
        (ownersD (files.foldl (fun fo2 fc => addOwner fo2 fc.path a) fo) f).length := by
  induction files with
  | nil => intro fo f; exact le_refl _
  | cons fc rest ih =>
    intro fo f
    simp only [List.foldl_cons]
    exact le_trans (length_ownersD_addOwner fo fc.path a f) (ih _ f)

theorem author_mem_ownersD_foldl_addOwner (a : String) (files : List FileChange) :
    ∀ (fo : List (String × List String)) (fc : FileChange), fc ∈ files →
      a ∈ ownersD (files.foldl (fun fo2 g => addOwner fo2 g.path a) fo) fc.path := by
  induction files with
  | nil => intro fo fc hfc; exact absurd hfc (List.not_mem_nil fc)
  | cons g rest ih =>
    intro fo fc hfc
    simp only [List.foldl_cons]
    rcases List.mem_cons.mp hfc with h | h
    · subst h
      apply mem_ownersD_foldl_addOwner
      rw [ownersD_addOwner_self]
      exact mem_insertNew_self _ _
    · exact ih _ fc h

theorem length_le_foldl_addOwner (a : String) (files : List FileChange) :
    ∀ fo : List (String × List String),
      fo.length ≤ (files.foldl (fun fo2 fc => addOwner fo2 fc.path a) fo).length := by
  induction files with
  | nil => intro fo; exact le_refl _
  | cons fc rest ih =>
    intro fo
    simp only [List.foldl_cons]
    exact le_trans (length_le_length_addOwner fo fc.path a) (ih _)

theorem foldl_addOwner_ne_nil (a : String) (files : List FileChange)
    (fo : List (String × List String)) (h : files ≠ [] ∨ fo ≠ []) :
    files.foldl (fun fo2 fc => addOwner fo2 fc.path a) fo ≠ [] := by
  rcases h with h | h
  · cases files with
    | nil => exact absurd rfl h
    | cons fc rest =>
      simp only [List.foldl_cons]
      intro hnil
      have h1 : (1 : Nat) ≤ (addOwner fo fc.path a).length := by
        cases he : addOwner fo fc.path a with
        | nil => exact absurd he (addOwner_ne_nil fo fc.path a)
        | cons x xs => simp
      have h2 := length_le_foldl_addOwner a rest (addOwner fo fc.path a)
      rw [hnil] at h2
      simp only [List.length_nil] at h2
      omega
  · intro hnil
    have h2 := length_le_foldl_addOwner a files fo
    rw [hnil] at h2
    simp only [List.length_nil] at h2
    exact h (List.length_eq_zero.mp (Nat.le_zero.mp h2))

/-- The ownership map after the file loop is nonempty as soon as the commit
changes at least one file or some earlier commit did. -/
theorem commitFold_ownership_isEmpty_false (E : Extractors) (a : String)
    (fo : List (String × List String)) (files : List FileChange)
    (h : files ≠ [] ∨ fo ≠ []) :
    (commitFold E a fo files).2.isEmpty = false := by
  unfold commitFold
  rw [commitFold_ownership]
  show (files.foldl (fun fo2 fc => addOwner fo2 fc.path a) fo).isEmpty = false
  have h3 := foldl_addOwner_ne_nil a files fo h
  cases he : (files.foldl (fun fo2 fc => addOwner fo2 fc.path a) fo).isEmpty with
  | false => rfl
  | true => exact absurd (List.isEmpty_iff.mp he) h3

/-! ## Per-commit sums when every file is filtered out -/

theorem foldl_foldFile_not_accepted (E : Extractors) (a : String)
    (files : List FileChange) (hacc : ∀ f ∈ files, accepted f.path = false) :
    ∀ st : CommitAcc × List (String × List String),
      (files.foldl (foldFile E a) st).1 =
        { st.1 with
          file_change_counter :=
            files.foldl (fun m f => incCount m f.path) st.1.file_change_counter } := by
  induction files with
  | nil => intro st; rfl
  | cons f rest ih =>
    intro st
    have hf : accepted f.path = false := hacc f (List.mem_cons_self f rest)
    have hrest : ∀ g ∈ rest, accepted g.path = false :=
      fun g hg => hacc g (List.mem_cons_of_mem f hg)
    simp only [List.foldl_cons]
    rw [ih hrest]
    rw [foldFile_not_accepted E a st f hf]

/-! ## Walks in which no commit qualifies -/

theorem foldlM_all_skipped (E : Extractors) (k : Int) (commits : List Commit)
    (hskip : ∀ c ∈ commits,
      c.committed_date = none ∨ ∃ d, c.committed_date = some d ∧ d < k) :
    ∀ s : WalkState, commits.foldlM (processCommit E k) s = Except.ok s := by
  induction commits with
  | nil => intro s; rfl
  | cons c rest ih =>
    intro s
    have hc := hskip c (List.mem_cons_self c rest)
    have hrest : ∀ c2 ∈ rest,
        c2.committed_date = none ∨ ∃ d, c2.committed_date = some d ∧ d < k :=
      fun c2 h2 => hskip c2 (List.mem_cons_of_mem c h2)
    rw [foldlM_cons_walk]
    have hp : processCommit E k s c = Except.ok s := by
      rcases hc with h | ⟨d, hd, hdk⟩
      · exact processCommit_no_date E k s c h
      · exact processCommit_too_old E k s c d hd hdk
    rw [hp]
    show rest.foldlM (processCommit E k) s = Except.ok s
    exact ih hrest s

/-! ## The author counter across a same-author qualifying walk -/

theorem walk_counts_aux (E : Extractors) (k : Int) (a : String) :
    ∀ (commits : List Commit),
      (∀ c ∈ commits, c.author_email = a ∧ ∃ d, c.committed_date = some d ∧ ¬ d < k) →
      ∀ (s s' : WalkState), commits.foldlM (processCommit E k) s = Except.ok s' →
        (lookupD s'.commit_counts_by_author a =
            lookupD s.commit_counts_by_author a + commits.length ∧
          s'.data.map (fun r => r.commit_frequency_by_author) =
            s.data.map (fun r => r.commit_frequency_by_author) ++
              List.range' (lookupD s.commit_counts_by_author a + 1) commits.length) := by
  intro commits
  induction commits with
  | nil =>
    intro _ s s' h
    have hs : s' = s := by
      rw [List.foldlM_nil] at h
      exact (Except.ok.inj h).symm
    subst hs
    simp
  | cons c rest ih =>
    intro hq s s' h
    obtain ⟨ha, d, hd, hdk⟩ := hq c (List.mem_cons_self c rest)
    have hrest : ∀ c2 ∈ rest,
        c2.author_email = a ∧ ∃ d2, c2.committed_date = some d2 ∧ ¬ d2 < k :=
      fun c2 h2 => hq c2 (List.mem_cons_of_mem c h2)
    rw [foldlM_cons_walk] at h
    cases he : (commitFold E c.author_email s.file_ownership c.stats_files).2.isEmpty with
    | true =>
      rw [processCommit_qual_empty E k s c d hd hdk he] at h
      exact absurd h (by simp [Except.bind])
    | false =>
      rw [processCommit_qual_ok E k s c d hd hdk he] at h
      have h2 := ih hrest _ s' h
      have hcnt : lookupD (incCount s.commit_counts_by_author c.author_email) a =
          lookupD s.commit_counts_by_author a + 1 := by
        rw [ha, lookupD_incCount_self]
      have hfreq : (mkRecord c d
          (commitFold E c.author_email s.file_ownership c.stats_files).1
          (commitFold E c.author_email s.file_ownership c.stats_files).2
          (incCount s.commit_counts_by_author c.author_email)).commit_frequency_by_author =
          lookupD s.commit_counts_by_author a + 1 := by
        show lookupD (incCount s.commit_counts_by_author c.author_email) c.author_email =
          lookupD s.commit_counts_by_author a + 1
        rw [ha, lookupD_incCount_self]
      constructor
      · rw [h2.1]
        simp only [WalkState.mk.injEq] at hcnt ⊢
        rw [hcnt]
        simp [List.length_cons]
        omega
      · rw [h2.2]
        simp only [List.map_append, List.map_cons, List.map_nil]
        rw [hcnt, hfreq]
        rw [List.length_cons, List.range'_succ]
        simp

/-! ## Record hashes across the walk -/

theorem walk_hashes_sublist (E : Extractors) (k : Int) :
    ∀ (commits : List Commit) (s s' : WalkState),
      commits.foldlM (processCommit E k) s = Except.ok s' →
      ∃ t, s'.data.map (fun r => r.commit_hash) =
          s.data.map (fun r => r.commit_hash) ++ t ∧
        t.Sublist (commits.map (fun c => c.hexsha)) := by
  intro commits
  induction commits with
  | nil =>
    intro s s' h
    rw [List.foldlM_nil] at h
    have hs : s' = s := (Except.ok.inj h).symm
    subst hs
    exact ⟨[], by simp, by simp⟩
  | cons c rest ih =>
    intro s s' h
    rw [foldlM_cons_walk] at h
    cases hp : processCommit E k s c with
    | error e => rw [hp] at h; exact absurd h (by simp [Except.bind])
    | ok s1 =>
      rw [hp] at h
      have h1 : rest.foldlM (processCommit E k) s1 = Except.ok s' := h
      rcases processCommit_ok_cases E k s c s1 hp with hskip | ⟨d, _, _, _, hemit⟩
      · obtain ⟨t, ht, hsub⟩ := ih s s' (hskip ▸ h1)
        exact ⟨t, ht, hsub.cons c.hexsha⟩
      · obtain ⟨t, ht, hsub⟩ := ih s1 s' h1
        refine ⟨c.hexsha :: t, ?_, ?_⟩
        · rw [ht, hemit]
          simp [mkRecord]
        · exact hsub.cons₂ c.hexsha

/-! ## Whole-walk ownership monotonicity -/

theorem processCommit_ownership_mono (E : Extractors) (k : Int) (s : WalkState)
    (c : Commit) (s' : WalkState) (h : processCommit E k s c = Except.ok s') :
    (∀ f x, x ∈ ownersD s.file_ownership f → x ∈ ownersD s'.file_ownership f) ∧
      (∀ f, (ownersD s.file_ownership f).length ≤ (ownersD s'.file_ownership f).length) := by
  rcases processCommit_ok_cases E k s c s' h with hskip | ⟨d, _, _, _, hemit⟩
  · subst hskip
    exact ⟨fun f x hx => hx, fun f => le_refl _⟩
  · subst hemit
    constructor
    · intro f x hx
      show x ∈ ownersD (commitFold E c.author_email s.file_ownership c.stats_files).2 f
      unfold commitFold
      rw [commitFold_ownership]
      exact mem_ownersD_foldl_addOwner c.author_email c.stats_files _ f x hx
    · intro f
      show (ownersD s.file_ownership f).length ≤
        (ownersD (commitFold E c.author_email s.file_ownership c.stats_files).2 f).length
      unfold commitFold
      rw [commitFold_ownership]
      exact length_ownersD_foldl_addOwner c.author_email c.stats_files _ f

theorem walk_ownership_mono (E : Extractors) (k : Int) :
    ∀ (commits : List Commit) (s s' : WalkState),
      commits.foldlM (processCommit E k) s = Except.ok s' →
      ∀ f x, x ∈ ownersD s.file_ownership f → x ∈ ownersD s'.file_ownership f := by
  intro commits
  induction commits with
  | nil =>
    intro s s' h f x hx
    rw [List.foldlM_nil] at h
    have hs : s' = s := (Except.ok.inj h).symm
    subst hs
    exact hx
  | cons c rest ih =>
    intro s s' h f x hx
    rw [foldlM_cons_walk] at h
    cases hp : processCommit E k s c with
    | error e => rw [hp] at h; exact absurd h (by simp [Except.bind])
    | ok s1 =>
      rw [hp] at h
      exact ih s1 s' h f x ((processCommit_ownership_mono E k s c s1 hp).1 f x hx)

/-! ## The change counter over distinct keys -/

theorem foldl_incCount_fresh :
    ∀ (files : List FileChange) (m : List (String × Nat)),
      (files.map (fun f => f.path)).Nodup →
      (∀ f ∈ files, f.path ∉ m.map (fun p => p.1)) →
      files.foldl (fun m2 f => incCount m2 f.path) m =
        m ++ files.map (fun f => (f.path, 1)) := by
  intro files
  induction files with
  | nil => intro m _ _; simp
  | cons f rest ih =>
    intro m hnd hfresh
    simp only [List.map_cons, List.nodup_cons] at hnd
    have hf : f.path ∉ m.map (fun p => p.1) :=
      hfresh f (List.mem_cons_self f rest)
    simp only [List.foldl_cons]
    rw [incCount_of_notMem m f.path hf]
    have hfresh2 : ∀ g ∈ rest,
        g.path ∉ (m ++ [(f.path, 1)]).map (fun p : String × Nat => p.1) := by
      intro g hg
      simp only [List.map_append, List.mem_append, List.map_cons, List.map_nil,
        List.mem_singleton, not_or]
      refine ⟨hfresh g (List.mem_cons_of_mem f hg), ?_⟩
      intro hcontra
      exact hnd.1 (hcontra ▸ List.mem_map_of_mem (fun f2 : FileChange => f2.path) hg)
    rw [ih (m ++ [(f.path, 1)]) hnd.2 hfresh2]
    simp

/-! ## Claim theorems -/

/-- C5 (confirmed): `calculate_entropy` implements Shannon entropy exactly as
specified: a mapping whose counts sum to `0` (the empty mapping included)
yields `0`; otherwise the value is `-Σ (count/total)·log2(count/total)` over
the entries; consequently every single-entry mapping yields `0` and any
nonempty mapping of equal positive counts over `k` entries yields `log2 k`. -/
theorem c5_calculate_entropy_spec :
    (∀ l : List (String × Nat), (l.map (fun p => p.2)).sum = 0 →
      calculate_entropy l = 0)
    ∧ (∀ l : List (String × Nat), (l.map (fun p => p.2)).sum ≠ 0 →
        calculate_entropy l =
          -((l.map
              (fun p => ((p.2 : ℝ) / (((l.map (fun q => q.2)).sum : Nat) : ℝ)) *
                Real.logb 2
                  ((p.2 : ℝ) / (((l.map (fun q => q.2)).sum : Nat) : ℝ)))).sum))
    ∧ (∀ (f : String) (c : Nat), calculate_entropy [(f, c)] = 0)
    ∧ (∀ (l : List (String × Nat)) (c : Nat), 0 < c → (∀ p ∈ l, p.2 = c) →
        l ≠ [] → calculate_entropy l = Real.logb 2 (l.length : ℝ)) :=
  ⟨calculate_entropy_sum_zero, calculate_entropy_sum_ne_zero,
    calculate_entropy_singleton,
    fun l c hc hall hne => calculate_entropy_const l c hc hall hne⟩

/-- Witness for C5 at concrete inputs: the empty mapping, a zero-count
two-entry mapping, a single entry, and four entries of equal count 2. -/
theorem c5_calculate_entropy_spec_witness :
    calculate_entropy [] = 0 ∧
    calculate_entropy [("a.py", 0), ("b.py", 0)] = 0 ∧
    calculate_entropy [("solo.py", 7)] = 0 ∧
    calculate_entropy [("a.py", 2), ("b.py", 2), ("c.py", 2), ("d.py", 2)] =
      Real.logb 2 (4 : ℝ) := by
  refine ⟨c5_calculate_entropy_spec.1 [] (by decide),
    c5_calculate_entropy_spec.1 [("a.py", 0), ("b.py", 0)] (by decide),
    c5_calculate_entropy_spec.2.2.1 "solo.py" 7, ?_⟩
  have h := c5_calculate_entropy_spec.2.2.2
    [("a.py", 2), ("b.py", 2), ("c.py", 2), ("d.py", 2)] 2 (by decide)
    (by decide) (by decide)
  simpa using h

/-- C9 (confirmed): for every qualifying commit, the change-count mapping the
loop hands to `calculate_entropy` assigns exactly `1` to each changed file
(`commit.stats.files` has distinct keys, and the loop bumps each once), so
the emitted `code_entropy` equals `log2` of the number of changed files
(`Real.logb 2 0 = 0` matches the source for a commit with no files). -/
theorem c9_counter_all_ones_entropy_log2 (E : Extractors) (k : Int) (s : WalkState)
    (c : Commit) (d : Int) (h1 : c.committed_date = some d) (h2 : ¬ d < k)
    (hnd : (c.stats_files.map (fun f => f.path)).Nodup)
    (hne : c.stats_files ≠ [] ∨ s.file_ownership ≠ []) :
    (commitFold E c.author_email s.file_ownership c.stats_files).1.file_change_counter =
      c.stats_files.map (fun f => (f.path, 1)) ∧
    (processCommit E k s c).map (fun t => t.data.map (fun r => r.code_entropy)) =
      Except.ok (s.data.map (fun r => r.code_entropy) ++
        [Real.logb 2 (c.stats_files.length : ℝ)]) := by
  have hcnt : (commitFold E c.author_email s.file_ownership c.stats_files).1.file_change_counter =
      c.stats_files.map (fun f => (f.path, 1)) := by
    unfold commitFold
    rw [commitFold_counter]
    show c.stats_files.foldl (fun m f => incCount m f.path) [] =
      c.stats_files.map (fun f => (f.path, 1))
    rw [foldl_incCount_fresh c.stats_files [] hnd (by intro f _; simp)]
    simp
  refine ⟨hcnt, ?_⟩
  have he := commitFold_ownership_isEmpty_false E c.author_email s.file_ownership
    c.stats_files hne
  rw [processCommit_qual_ok E k s c d h1 h2 he]
  have hent : (mkRecord c d (commitFold E c.author_email s.file_ownership c.stats_files).1
      (commitFold E c.author_email s.file_ownership c.stats_files).2
      (incCount s.commit_counts_by_author c.author_email)).code_entropy =
      Real.logb 2 (c.stats_files.length : ℝ) := by
    show calculate_entropy
      (commitFold E c.author_email s.file_ownership c.stats_files).1.file_change_counter =
      Real.logb 2 (c.stats_files.length : ℝ)
    rw [hcnt]
    rw [calculate_entropy_all_ones _ (by intro p hp; obtain ⟨f, _, hpf⟩ := List.mem_map.mp hp; exact hpf ▸ rfl)]
    simp
  simp only [Except.map, List.map_append, List.map_cons, List.map_nil, hent]

/-- Concrete extractors for the C9 witness: no backend is ever reached
because both changed files have failing retrieval. -/
def E9 : Extractors :=
  { cc_visit := fun _ => Except.ok [1],
    lizard_functions := fun _ => Except.ok [1],
    mi_visit_mi := fun _ => Except.error "TypeError" }

/-- Concrete commit for the C9 witness: two distinct changed files. -/
def c9 : Commit :=
  { hexsha := "c9hash", author_email := "dev9@x", committed_date := some 5,
    stats_files :=
      [{ path := "x.py", insertions := 1, deletions := 0, retrieval := none },
       { path := "y.txt", insertions := 2, deletions := 1, retrieval := none }] }

/-- Witness for C9: the counter maps both files of `c9` to `1` and the
emitted entropy is `log2 2`. -/
theorem c9_counter_all_ones_entropy_log2_witness :
    (commitFold E9 c9.author_email initState.file_ownership c9.stats_files).1.file_change_counter =
      c9.stats_files.map (fun f => (f.path, 1)) ∧
    (processCommit E9 0 initState c9).map (fun t => t.data.map (fun r => r.code_entropy)) =
      Except.ok (initState.data.map (fun r => r.code_entropy) ++
        [Real.logb 2 (c9.stats_files.length : ℝ)]) :=
  c9_counter_all_ones_entropy_log2 E9 0 initState c9 5 rfl (by decide) (by decide)
    (Or.inl (List.cons_ne_nil _ _))

/-- C1 (corrected): when the first qualifying commit of the walk changed no
files, `file_ownership` is still empty at record time, so
`len(file_ownership)` is `0` and the ownership-mean division raises
`ZeroDivisionError`; nothing catches it, so the whole walk aborts and no
record is emitted — the 0-by-convention policy holds only for the entropy
denominator, not for the ownership mean. -/
theorem c1_empty_ownership_aborts_walk (E : Extractors) (k : Int) (c : Commit)
    (rest : List Commit) (d : Int) (h1 : c.committed_date = some d)
    (h2 : ¬ d < k) (h3 : c.stats_files = []) :
    analyze_repository E k (c :: rest) =
      Except.error "ZeroDivisionError: division by zero" := by
  unfold analyze_repository
  rw [foldlM_cons_walk]
  have he : (commitFold E c.author_email initState.file_ownership c.stats_files).2.isEmpty
      = true := by
    rw [h3]
    rfl
  rw [processCommit_qual_empty E k initState c d h1 h2 he]
  rfl

/-- Concrete extractors for the C1 witness (never reached: no files). -/
def E1 : Extractors :=
  { cc_visit := fun _ => Except.ok [],
    lizard_functions := fun _ => Except.ok [],
    mi_visit_mi := fun _ => Except.ok 0 }

/-- C1 witness commit: qualifying (date 5 ≥ cutoff 0) but changing no files. -/
def c1empty : Commit :=
  { hexsha := "c1hash", author_email := "dev1@x", committed_date := some 5,
    stats_files := [] }

/-- A later commit that would qualify, showing the abort swallows the rest of
the walk. -/
def c1later : Commit :=
  { hexsha := "c1later", author_email := "dev1@x", committed_date := some 6,
    stats_files :=
      [{ path := "a.py", insertions := 1, deletions := 0, retrieval := none }] }

/-- Witness for C1 (amended): the walk over a zero-file first qualifying
commit aborts with the division error even though another commit follows. -/
theorem c1_empty_ownership_aborts_walk_witness :
    analyze_repository E1 0 [c1empty, c1later] =
      Except.error "ZeroDivisionError: division by zero" :=
  c1_empty_ownership_aborts_walk E1 0 c1empty [c1later] 5 rfl (by decide) rfl

/-- Counterexample to C1 as stated: the claim promises that the
zero-distinct-files case never aborts the walk and still emits a record with
`unique_authors_per_file_avg = 0`; on this concrete input the code instead
raises and produces no dataset at all. -/
theorem c1_cex_walk_aborts :
    analyze_repository
      ⟨fun _ => Except.ok [], fun _ => Except.ok [], fun _ => Except.ok 0⟩ 0
      [{ hexsha := "deadbeef", author_email := "solo@x", committed_date := some 3,
         stats_files := [] }] =
      Except.error "ZeroDivisionError: division by zero" := rfl

/-- C8 (corrected): a qualifying commit with at least one changed file, none
of it carrying an accepted extension, still emits exactly one record whose
`files_changed` and all content-derived sums are `0`, while `code_entropy` is
computed over the unfiltered change counter of ALL changed files.  (When the
commit changes no files at all and nothing was seen before, the record is not
emitted — the ownership-mean division aborts the walk instead, the C1
correction.) -/
theorem c8_filtered_commit_still_emits (E : Extractors) (k : Int) (s : WalkState)
    (c : Commit) (d : Int) (h1 : c.committed_date = some d) (h2 : ¬ d < k)
    (hacc : ∀ f ∈ c.stats_files, accepted f.path = false)
    (hne : c.stats_files ≠ []) :
    (processCommit E k s c).map (fun t => t.data.map (fun r =>
        (r.files_changed, r.lines_added, r.lines_deleted,
         r.total_cyclomatic_complexity, r.total_cohesion_metric_lcom,
         r.total_coupling_metric_imports))) =
      Except.ok (s.data.map (fun r =>
        (r.files_changed, r.lines_added, r.lines_deleted,
         r.total_cyclomatic_complexity, r.total_cohesion_metric_lcom,
         r.total_coupling_metric_imports)) ++ [(0, 0, 0, 0, 0, 0)]) ∧
    (processCommit E k s c).map
        (fun t => t.data.map (fun r => r.total_maintainability_index)) =
      Except.ok (s.data.map (fun r => r.total_maintainability_index) ++ [(0 : ℝ)]) ∧
    (processCommit E k s c).map (fun t => t.data.map (fun r => r.code_entropy)) =
      Except.ok (s.data.map (fun r => r.code_entropy) ++
        [calculate_entropy
          (c.stats_files.foldl (fun m f => incCount m f.path) [])]) := by
  have he := commitFold_ownership_isEmpty_false E c.author_email s.file_ownership
    c.stats_files (Or.inl hne)
  have hfold : (commitFold E c.author_email s.file_ownership c.stats_files).1 =
      { initAcc with
        file_change_counter :=
          c.stats_files.foldl (fun m f => incCount m f.path) [] } := by
    unfold commitFold
    rw [foldl_foldFile_not_accepted E c.author_email c.stats_files hacc
      (initAcc, s.file_ownership)]
    rfl
  rw [processCommit_qual_ok E k s c d h1 h2 he]
  refine ⟨?_, ?_, ?_⟩ <;>
    simp [Except.map, mkRecord, hfold, initAcc]

/-- Extractors for the C8 witness (the filter keeps every backend unreached). -/
def E8 : Extractors :=
  { cc_visit := fun _ => Except.ok [3],
    lizard_functions := fun _ => Except.ok [2, 2],
    mi_visit_mi := fun _ => Except.ok 50 }

/-- C8 witness commit: one changed file with an excluded extension. -/
def c8txt : Commit :=
  { hexsha := "c8hash", author_email := "dev8@x", committed_date := some 4,
    stats_files :=
      [{ path := "notes.txt", insertions := 5, deletions := 1,
         retrieval := some "from x import y" }] }

/-- Witness for C8 (amended) on `c8txt`. -/
theorem c8_filtered_commit_still_emits_witness :
    (processCommit E8 0 initState c8txt).map (fun t => t.data.map (fun r =>
        (r.files_changed, r.lines_added, r.lines_deleted,
         r.total_cyclomatic_complexity, r.total_cohesion_metric_lcom,
         r.total_coupling_metric_imports))) =
      Except.ok (initState.data.map (fun r =>
        (r.files_changed, r.lines_added, r.lines_deleted,
         r.total_cyclomatic_complexity, r.total_cohesion_metric_lcom,
         r.total_coupling_metric_imports)) ++ [(0, 0, 0, 0, 0, 0)]) ∧
    (processCommit E8 0 initState c8txt).map
        (fun t => t.data.map (fun r => r.total_maintainability_index)) =
      Except.ok (initState.data.map (fun r => r.total_maintainability_index) ++ [(0 : ℝ)]) ∧
    (processCommit E8 0 initState c8txt).map
        (fun t => t.data.map (fun r => r.code_entropy)) =
      Except.ok (initState.data.map (fun r => r.code_entropy) ++
        [calculate_entropy
          (c8txt.stats_files.foldl (fun m f => incCount m f.path) [])]) :=
  c8_filtered_commit_still_emits E8 0 initState c8txt 4 rfl (by decide)
    (by intro f hf
        simp only [c8txt, List.mem_singleton] at hf
        subst hf
        decide)
    (List.cons_ne_nil _ _)

/-- Counterexample to C8 as stated: a qualifying commit with no changed files
vacuously has no accepted-extension file, yet the code emits no record — the
walk aborts on the ownership-mean division instead. -/
theorem c8_cex_zero_file_commit_aborts :
    analyze_repository
      ⟨fun _ => Except.ok [], fun _ => Except.ok [], fun _ => Except.ok 0⟩ 0
      [{ hexsha := "c8cex", author_email := "cex8@x", committed_date := some 2,
         stats_files := [] }] =
      Except.error "ZeroDivisionError: division by zero" := rfl

/-- C2 (corrected): the per-file error handling is asymmetric.  (1) When
content retrieval fails, the file contributes nothing to any per-commit sum
(only the entropy counter, which is unconditional).  (2) When retrieval
succeeds but the complexity analysis raises, the file HAS already been
counted: `files_changed`, `lines_added` and `lines_deleted` include it, and
only the four metric sums omit it — because the source increments churn and
the file count before calling the analyzers inside the same `try`.  (3) In
both cases the commit record is still produced (one record appended)
whenever the commit changes at least one file. -/
theorem c2_per_file_failure_scope (E : Extractors) :
    (∀ (a : String) (st : CommitAcc × List (String × List String)) (f : FileChange),
      f.retrieval = none →
      (foldFile E a st f).1 =
        { st.1 with
          file_change_counter := incCount st.1.file_change_counter f.path })
    ∧ (∀ (a : String) (st : CommitAcc × List (String × List String))
        (f : FileChange) (src e : String),
        accepted f.path = true → f.retrieval = some src →
        measure_cyclomatic_complexity E src (splitext_ext f.path) = Except.error e →
        (foldFile E a st f).1 =
          { st.1 with
            file_change_counter := incCount st.1.file_change_counter f.path,
            churn_add := st.1.churn_add + f.insertions,
            churn_del := st.1.churn_del + f.deletions,
            file_count := st.1.file_count + 1 })
    ∧ (∀ (k : Int) (s : WalkState) (c : Commit) (d : Int),
        c.committed_date = some d → ¬ d < k → c.stats_files ≠ [] →
        (processCommit E k s c).map (fun t => t.data.length) =
          Except.ok (s.data.length + 1)) := by
  refine ⟨foldFile_retrieval_none E, ?_, ?_⟩
  · intro a st f src e h1 h2 h3
    exact foldFile_cc_error E a st f src e h1 h2 h3
  · intro k s c d h1 h2 hne
    have he := commitFold_ownership_isEmpty_false E c.author_email s.file_ownership
      c.stats_files (Or.inl hne)
    rw [processCommit_qual_ok E k s c d h1 h2 he]
    simp [Except.map]

/-- Extractors for the C2 witness and counterexample: the radon complexity
backend raises (as `cc_visit` does on a Python syntax error), the others
answer normally. -/
def E2 : Extractors :=
  { cc_visit := fun _ => Except.error "SyntaxError",
    lizard_functions := fun _ => Except.ok [4],
    mi_visit_mi := fun _ => Except.ok 80 }

/-- C2 witness commit: a sole `.py` file whose content is retrieved but whose
complexity analysis raises. -/
def c2py : Commit :=
  { hexsha := "c2hash", author_email := "dev2@x", committed_date := some 7,
    stats_files :=
      [{ path := "m.py", insertions := 3, deletions := 2,
         retrieval := some "def broken(" }] }

/-- A file with failing retrieval, for part (1) of the C2 witness. -/
def fGone : FileChange :=
  { path := "gone.py", insertions := 9, deletions := 9, retrieval := none }

/-- Witness for C2 (amended), instantiating all three parts. -/
theorem c2_per_file_failure_scope_witness :
    (foldFile E2 "dev2@x" (initAcc, []) fGone).1 =
      { initAcc with
        file_change_counter := incCount initAcc.file_change_counter fGone.path } ∧
    (foldFile E2 "dev2@x" (initAcc, [])
        { path := "m.py", insertions := 3, deletions := 2,
          retrieval := some "def broken(" }).1 =
      { initAcc with
        file_change_counter := incCount initAcc.file_change_counter "m.py",
        churn_add := initAcc.churn_add + 3,
        churn_del := initAcc.churn_del + 2,
        file_count := initAcc.file_count + 1 } ∧
    (processCommit E2 0 initState c2py).map (fun t => t.data.length) =
      Except.ok (initState.data.length + 1) :=
  ⟨(c2_per_file_failure_scope E2).1 "dev2@x" (initAcc, []) fGone rfl,
    (c2_per_file_failure_scope E2).2.1 "dev2@x" (initAcc, [])
      { path := "m.py", insertions := 3, deletions := 2,
        retrieval := some "def broken(" } "def broken(" "SyntaxError"
      (by decide) rfl rfl,
    (c2_per_file_failure_scope E2).2.2 0 initState c2py 7 rfl (by decide)
      (List.cons_ne_nil _ _)⟩

/-- Counterexample to C2 as stated: the sole changed file of `c2py` fails its
metric-analysis step, yet the emitted record counts it — `files_changed = 1`,
`lines_added = 3`, `lines_deleted = 2` — instead of omitting its contribution;
only the metric sums stay `0`. -/
theorem c2_cex_failed_analysis_still_counted :
    (processCommit E2 0 initState c2py).map (fun t => t.data.map (fun r =>
        (r.files_changed, r.lines_added, r.lines_deleted,
         r.total_cyclomatic_complexity, r.total_cohesion_metric_lcom,
         r.total_coupling_metric_imports))) =
      Except.ok [(1, 3, 2, 0, 0, 0)] := rfl

/-- C10 (confirmed): when no commit qualifies (every commit lacks a usable
timestamp or is older than the cutoff), the walk leaves the state untouched,
the record list is empty, and the dataset-assembly step fails with a
`KeyError` — the empty `DataFrame` has no `commit_date` column — instead of
returning a zero-row table. -/
theorem c10_no_qualifying_commit_errors (E : Extractors) (k : Int)
    (commits : List Commit)
    (hskip : ∀ c ∈ commits,
      c.committed_date = none ∨ ∃ d, c.committed_date = some d ∧ d < k) :
    commits.foldlM (processCommit E k) initState = Except.ok initState ∧
    analyze_repository E k commits = Except.error "KeyError: commit_date" := by
  have h1 := foldlM_all_skipped E k commits hskip initState
  refine ⟨h1, ?_⟩
  unfold analyze_repository
  rw [h1]
  rfl

/-- Extractors for the C10 witness (never reached). -/
def E10 : Extractors :=
  { cc_visit := fun _ => Except.ok [1],
    lizard_functions := fun _ => Except.ok [1],
    mi_visit_mi := fun _ => Except.ok 10 }

/-- A commit with no usable timestamp. -/
def c10nodate : Commit :=
  { hexsha := "c10a", author_email := "dev10@x", committed_date := none,
    stats_files :=
      [{ path := "a.py", insertions := 1, deletions := 1, retrieval := none }] }

/-- A commit older than the retention cutoff. -/
def c10old : Commit :=
  { hexsha := "c10b", author_email := "dev10@x", committed_date := some 3,
    stats_files :=
      [{ path := "b.py", insertions := 2, deletions := 0, retrieval := none }] }

/-- Witness for C10: with cutoff 100 neither commit qualifies and the run
errors out instead of producing an empty table. -/
theorem c10_no_qualifying_commit_errors_witness :
    [c10nodate, c10old].foldlM (processCommit E10 100) initState =
      Except.ok initState ∧
    analyze_repository E10 100 [c10nodate, c10old] =
      Except.error "KeyError: commit_date" :=
  c10_no_qualifying_commit_errors E10 100 [c10nodate, c10old]
    (by
      intro c hc
      rcases List.mem_cons.mp hc with h | h
      · subst h
        exact Or.inl rfl
      · rcases List.mem_cons.mp h with h2 | h2
        · subst h2
          exact Or.inr ⟨3, rfl, by decide⟩
        · exact absurd h2 (List.not_mem_nil c))

/-- C6 (confirmed): the per-author counter never decreases across a
successful iteration, and over a walk of `n` qualifying same-author commits
it is bumped exactly once per commit before the record is appended, so the
`i`-th emitted record carries `i` and the final count is `n`. -/
theorem c6_author_counter_monotone_inclusive (E : Extractors) (k : Int) :
    (∀ (s : WalkState) (c : Commit) (s' : WalkState),
      processCommit E k s c = Except.ok s' →
      ∀ a, lookupD s.commit_counts_by_author a ≤ lookupD s'.commit_counts_by_author a)
    ∧ (∀ (a : String) (commits : List Commit),
        (∀ c ∈ commits, c.author_email = a ∧ ∃ d, c.committed_date = some d ∧ ¬ d < k) →
        ∀ s', commits.foldlM (processCommit E k) initState = Except.ok s' →
          lookupD s'.commit_counts_by_author a = commits.length ∧
          s'.data.map (fun r => r.commit_frequency_by_author) =
            List.range' 1 commits.length) := by
  constructor
  · intro s c s' h a
    rcases processCommit_ok_cases E k s c s' h with hskip | ⟨d, _, _, _, hemit⟩
    · subst hskip
      exact le_refl _
    · subst hemit
      exact lookupD_incCount_le s.commit_counts_by_author c.author_email a
  · intro a commits hq s' h
    have h2 := walk_counts_aux E k a commits hq initState s' h
    have h0 : lookupD initState.commit_counts_by_author a = 0 := rfl
    rw [h0] at h2
    refine ⟨by omega, ?_⟩
    have h3 := h2.2
    simpa using h3

/-- Extractors for the C6 witness (never consulted: retrieval fails). -/
def E6 : Extractors :=
  { cc_visit := fun _ => Except.ok [1],
    lizard_functions := fun _ => Except.ok [1],
    mi_visit_mi := fun _ => Except.ok 10 }

/-- First C6 witness commit. -/
def c6first : Commit :=
  { hexsha := "c6a", author_email := "same@x", committed_date := some 9,
    stats_files :=
      [{ path := "u.py", insertions := 1, deletions := 0, retrieval := none }] }

/-- Second C6 witness commit, same author. -/
def c6second : Commit :=
  { hexsha := "c6b", author_email := "same@x", committed_date := some 4,
    stats_files :=
      [{ path := "v.py", insertions := 0, deletions := 1, retrieval := none }] }

/-- Witness for C6: two same-author qualifying commits yield emitted counter
values `[1, 2]` and a final count of `2`. -/
theorem c6_author_counter_monotone_inclusive_witness :
    ∃ s', [c6first, c6second].foldlM (processCommit E6 0) initState = Except.ok s' ∧
      lookupD s'.commit_counts_by_author "same@x" = 2 ∧
      s'.data.map (fun r => r.commit_frequency_by_author) = [1, 2] := by
  have hq : ∀ c ∈ [c6first, c6second],
      c.author_email = "same@x" ∧ ∃ d, c.committed_date = some d ∧ ¬ d < (0 : Int) := by
    intro c hc
    rcases List.mem_cons.mp hc with h | h
    · subst h
      exact ⟨rfl, 9, rfl, by decide⟩
    · rcases List.mem_cons.mp h with h2 | h2
      · subst h2
        exact ⟨rfl, 4, rfl, by decide⟩
      · exact absurd h2 (List.not_mem_nil c)
    
  refine ⟨_, rfl, ?_, ?_⟩
  · exact ((c6_author_counter_monotone_inclusive E6 0).2 "same@x"
      [c6first, c6second] hq _ rfl).1
  · have h := ((c6_author_counter_monotone_inclusive E6 0).2 "same@x"
      [c6first, c6second] hq _ rfl).2
    rw [h]
    rfl

/-- C7 (confirmed): per-file owner sets only grow.  Across any successful
iteration every existing owner stays and the set sizes are non-decreasing;
over a whole successful walk membership is preserved transitively; and a
qualifying commit's author is added to the owner set of EVERY file it
changed, accepted extension or not. -/
theorem c7_ownership_accumulator_grows (E : Extractors) (k : Int) :
    (∀ (s : WalkState) (c : Commit) (s' : WalkState),
      processCommit E k s c = Except.ok s' →
      (∀ f x, x ∈ ownersD s.file_ownership f → x ∈ ownersD s'.file_ownership f) ∧
      (∀ f, (ownersD s.file_ownership f).length ≤ (ownersD s'.file_ownership f).length))
    ∧ (∀ (s : WalkState) (c : Commit) (s' : WalkState) (d : Int),
        c.committed_date = some d → ¬ d < k →
        processCommit E k s c = Except.ok s' →
        ∀ fc ∈ c.stats_files, c.author_email ∈ ownersD s'.file_ownership fc.path)
    ∧ (∀ (commits : List Commit) (s s' : WalkState),
        commits.foldlM (processCommit E k) s = Except.ok s' →
        ∀ f x, x ∈ ownersD s.file_ownership f → x ∈ ownersD s'.file_ownership f) := by
  refine ⟨processCommit_ownership_mono E k, ?_, walk_ownership_mono E k⟩
  intro s c s' d h1 h2 h fc hfc
  cases he : (commitFold E c.author_email s.file_ownership c.stats_files).2.isEmpty with
  | true =>
    rw [processCommit_qual_empty E k s c d h1 h2 he] at h
    exact absurd h (by simp)
  | false =>
    rw [processCommit_qual_ok E k s c d h1 h2 he] at h
    have hs := (Except.ok.inj h).symm
    subst hs
    show c.author_email ∈
      ownersD (commitFold E c.author_email s.file_ownership c.stats_files).2 fc.path
    unfold commitFold
    rw [commitFold_ownership]
    exact author_mem_ownersD_foldl_addOwner c.author_email c.stats_files
      s.file_ownership fc hfc

/-- Extractors for the C7 witness (never consulted). -/
def E7 : Extractors :=
  { cc_visit := fun _ => Except.ok [1],
    lizard_functions := fun _ => Except.ok [1],
    mi_visit_mi := fun _ => Except.ok 10 }

/-- C7 witness commit: changes one accepted and one excluded file. -/
def c7both : Commit :=
  { hexsha := "c7a", author_email := "own@x", committed_date := some 8,
    stats_files :=
      [{ path := "code.py", insertions := 1, deletions := 0, retrieval := none },
       { path := "README.md", insertions := 4, deletions := 0, retrieval := none }] }

/-- Witness for C7: after processing `c7both` from the empty state, the
author owns both changed files — the excluded `README.md` included — and the
monotonicity clauses hold at this concrete step. -/
theorem c7_ownership_accumulator_grows_witness :
    ∃ s', processCommit E7 0 initState c7both = Except.ok s' ∧
      "own@x" ∈ ownersD s'.file_ownership "code.py" ∧
      "own@x" ∈ ownersD s'.file_ownership "README.md" ∧
      (ownersD initState.file_ownership "code.py").length ≤
        (ownersD s'.file_ownership "code.py").length := by
  refine ⟨_, rfl, ?_, ?_, ?_⟩
  · exact (c7_ownership_accumulator_grows E7 0).2.1 initState c7both _ 8 rfl
      (by decide) rfl
      { path := "code.py", insertions := 1, deletions := 0, retrieval := none }
      (List.mem_cons_self _ _)
  · exact (c7_ownership_accumulator_grows E7 0).2.1 initState c7both _ 8 rfl
      (by decide) rfl
      { path := "README.md", insertions := 4, deletions := 0, retrieval := none }
      (List.mem_cons_of_mem _ (List.mem_cons_self _ _))
  · exact ((c7_ownership_accumulator_grows E7 0).1 initState c7both _ rfl).2 "code.py"

/-- C3 (confirmed): for every walk order of the input commits — the
reverse-chronological order of `iter_commits` included — a successful run
returns a table sorted by commit date ascending whose rows are uniquely
keyed by commit hash (assuming the walker yields distinct hexshas, as git
does). -/
theorem c3_sorted_ascending_unique_keys (E : Extractors) (k : Int)
    (commits : List Commit) (tbl : List Record)
    (hnd : (commits.map (fun c => c.hexsha)).Nodup)
    (h : analyze_repository E k commits = Except.ok tbl) :
    List.Sorted (fun a b : Record => a.commit_date ≤ b.commit_date) tbl ∧
    (tbl.map (fun r => r.commit_hash)).Nodup := by
  obtain ⟨s, hf, hne, htbl⟩ := analyze_repository_ok_inv E k commits tbl h
  subst htbl
  refine ⟨sortByDate_sorted _, ?_⟩
  obtain ⟨t, ht, hsub⟩ := walk_hashes_sublist E k commits initState s hf
  have hdata : s.data.map (fun r => r.commit_hash) = t := by simpa using ht
  have hnod : (s.data.map (fun r => r.commit_hash)).Nodup := by
    rw [hdata]
    exact hsub.nodup hnd
  have hperm : ((sortByDate s.data).map (fun r => r.commit_hash)).Perm
      (s.data.map (fun r => r.commit_hash)) := (sortByDate_perm s.data).map _
  exact hperm.nodup_iff.mpr hnod

/-- Extractors for the C3 witness (never consulted). -/
def E3 : Extractors :=
  { cc_visit := fun _ => Except.ok [1],
    lizard_functions := fun _ => Except.ok [1],
    mi_visit_mi := fun _ => Except.ok 10 }

/-- Newer C3 witness commit, walked first (reverse-chronological order). -/
def c3newer : Commit :=
  { hexsha := "c3new", author_email := "t@x", committed_date := some 9,
    stats_files :=
      [{ path := "n.py", insertions := 1, deletions := 0, retrieval := none }] }

/-- Older C3 witness commit, walked second. -/
def c3older : Commit :=
  { hexsha := "c3old", author_email := "t@x", committed_date := some 5,
    stats_files :=
      [{ path := "o.py", insertions := 2, deletions := 1, retrieval := none }] }

/-- Witness for C3: a reverse-chronological two-commit walk succeeds and its
table is sorted ascending with distinct hashes. -/
theorem c3_sorted_ascending_unique_keys_witness :
    ∃ tbl, analyze_repository E3 0 [c3newer, c3older] = Except.ok tbl ∧
      List.Sorted (fun a b : Record => a.commit_date ≤ b.commit_date) tbl ∧
      (tbl.map (fun r => r.commit_hash)).Nodup := by
  refine ⟨_, rfl, ?_, ?_⟩
  · exact (c3_sorted_ascending_unique_keys E3 0 [c3newer, c3older] _
      (by decide) rfl).1
  · exact (c3_sorted_ascending_unique_keys E3 0 [c3newer, c3older] _
      (by decide) rfl).2
